import Mathlib

/- Verification of the StACSOS syscall layer: a shallow embedding of the
   syscall dispatcher (handle_syscall), the directory enumerator
   (do_readdir) with its user-memory validation, and the ls command-line
   tool, translated from the C++ sources.  Machine words (u64, u32) are
   modelled as Nat with explicit reduction modulo 2 ^ 64 or 2 ^ 32 at the
   points where the C++ arithmetic can wrap.  C strings are modelled as
   lists of byte values; a possibly-null string pointer is an Option. -/

namespace Stacsos

/-- Result codes a syscall can return (enum syscall_result_code). -/
inductive syscall_result_code where
  | ok
  | not_found
  | not_supported
deriving DecidableEq, Repr

/-- Result of a syscall: a code plus a 64-bit data word (struct syscall_result). -/
structure syscall_result where
  code : syscall_result_code
  data : Nat
deriving DecidableEq, Repr

/-- Result of a generic kernel object operation (struct operation_result);
the dispatcher re-encodes it as a syscall_result by casting the code. -/
structure operation_result where
  code : syscall_result_code
  data : Nat
deriving DecidableEq, Repr

/-- Translation from operation_result to syscall_result performed by the
dispatcher (function operation_result_to_syscall_result in the source). -/
def operation_result_to_syscall_result (o : operation_result) : syscall_result :=
  { code := o.code, data := o.data }

/-- MAX_FILE_NAME_LENGTH from dirent.h: the size of the fixed name buffer. -/
def MAX_FILE_NAME_LENGTH : Nat := 64

/-- Size in bytes of struct dirent on the x86-64 target: 64 bytes of name,
1 byte of type, 3 bytes of padding, 4 bytes of size. -/
def sizeof_dirent : Nat := 72

/-- Directory entry record copied into the user buffer (struct dirent).
The name field models the full 64-byte buffer; type is the byte value of
the type character (100 for d, 102 for f); size is the u32 size field. -/
structure dirent where
  name : List Nat
  type : Nat
  size : Nat
deriving DecidableEq, Repr

/-- Kind of a filesystem node (enum fs_node_kind). -/
inductive fs_node_kind where
  | directory
  | file
deriving DecidableEq, Repr

/-- Modelled from the spec: a filesystem node, the collaborator behind the
vfs lookup.  A node has a kind, a name (its C string bytes), a byte size
(a u64 value, meaningful for files) and, for directories, the list of
children in the collaborator-defined iteration order, already
materialized (ensure_loaded is a no-op in the model). -/
inductive fs_node where
  | mk (kind : fs_node_kind) (name : List Nat) (size : Nat) (children : List fs_node)

/-- Kind accessor of a filesystem node. -/
def fs_node.kind : fs_node → fs_node_kind
  | .mk k _ _ _ => k

/-- Name accessor of a filesystem node. -/
def fs_node.name : fs_node → List Nat
  | .mk _ n _ _ => n

/-- Size accessor of a filesystem node. -/
def fs_node.size : fs_node → Nat
  | .mk _ _ s _ => s

/-- Children accessor of a filesystem node. -/
def fs_node.children : fs_node → List fs_node
  | .mk _ _ _ c => c

/-- Modelled from the spec: one memory region of a process address space.
The flags bitmask is reduced to the single writable bit the readdir path
tests; storage_base is the kernel base address of the backing storage
(rgn.storage - base_address_ptr in the source). -/
structure region where
  base : Nat
  size : Nat
  writable : Bool
  storage_base : Nat
deriving DecidableEq, Repr

/-- Modelled from the spec: addrspace().get_region_from_address, the
address-space collaborator lookup returning the region of the process
that contains the given address, if any (regions are disjoint, so at
most one contains it; the model returns the first). -/
def get_region_from_address (regions : List region) (addr : Nat) : Option region :=
  regions.find? (fun r => decide (r.base ≤ addr) && decide (addr < r.base + r.size))

/-- User-memory validation performed by do_readdir for each destination
record (lines 133 to 147 of the source): look up the containing region;
fail if there is none, if addr + size exceeds base + size in u64
arithmetic, or if the region is not writable; on success return the
kernel-side copy address storage_base + (addr - base), a u64 value. -/
def validate_user_address (regions : List region) (addr sz : Nat) : Option Nat :=
  match get_region_from_address regions addr with
  | none => none
  | some rgn =>
    if (rgn.base + rgn.size) % 2 ^ 64 < (addr + sz) % 2 ^ 64 then none
    else if rgn.writable = false then none
    else some ((rgn.storage_base + (addr - rgn.base)) % 2 ^ 64)

/-- Construction of the dirent record for one child (lines 105 to 121 of
do_readdir): the record is zero-initialized, the name is copied truncated
to 63 bytes and NUL-terminated, the type byte is 100 (d) for directories
and 102 (f) otherwise, and the size is the child byte size cast to u32
for files and 0 for directories. -/
def mk_dirent (child : fs_node) : dirent :=
  let nm := child.name
  let len := if MAX_FILE_NAME_LENGTH ≤ nm.length then MAX_FILE_NAME_LENGTH - 1 else nm.length
  { name := nm.take len ++ List.replicate (MAX_FILE_NAME_LENGTH - len) 0
    type := if child.kind = fs_node_kind.directory then 100 else 102
    size := if child.kind = fs_node_kind.file then child.size % 2 ^ 32 else 0 }

/-- Iteration over the directory children in do_readdir (lines 100 to 151).
Besides the syscall_result, the model returns the trace of copies into
kernel-visible memory: the list of (kernel destination address, record)
pairs, in the order they were committed.  On a validation failure the
call stops at once with not_supported, keeping the copies already made. -/
def readdir_loop (regions : List region) (user_buf : Nat) (max_entries : Nat) :
    List fs_node → Nat → List (Nat × dirent) → syscall_result × List (Nat × dirent)
  | [], counter, acc => (⟨.ok, counter⟩, acc)
  | child :: rest, counter, acc =>
    if max_entries ≤ counter then (⟨.ok, counter⟩, acc)
    else
      let ent := mk_dirent child
      let dst := (user_buf + sizeof_dirent * counter) % 2 ^ 64
      match validate_user_address regions dst sizeof_dirent with
      | none => (⟨.not_supported, 0⟩, acc)
      | some kdst => readdir_loop regions user_buf max_entries rest (counter + 1) (acc ++ [(kdst, ent)])

/-- Collaborators of do_readdir: the vfs lookup and the region set of the
calling process address space. -/
structure readdir_env where
  lookup : List Nat → Option fs_node
  regions : List region

/-- Shallow embedding of do_readdir (lines 64 to 154 of the source).  The
path is none for a null pointer, otherwise the bytes of the C string.  A
null or empty path resolves the root; a non-absolute path is rejected
with not_supported before any filesystem access; a failed lookup gives
not_found; a non-directory node gives not_supported.  The static_cast to
fat_node of a non-null pointer never yields null, so that branch of the
source is unreachable and has no counterpart here. -/
def do_readdir (env : readdir_env) (path : Option (List Nat)) (user_buf : Nat)
    (max_entries : Nat) : syscall_result × List (Nat × dirent) :=
  let looked :=
    match path with
    | none => some (env.lookup [47])
    | some [] => some (env.lookup [47])
    | some (c :: cs) => if c = 47 then some (env.lookup (c :: cs)) else none
  match looked with
  | none => (⟨.not_supported, 0⟩, [])
  | some none => (⟨.not_found, 0⟩, [])
  | some (some node) =>
    if node.kind ≠ fs_node_kind.directory then (⟨.not_supported, 0⟩, [])
    else readdir_loop env.regions user_buf max_entries node.children 0 []

instance : Inhabited dirent := ⟨⟨[], 0, 0⟩⟩

instance : Inhabited fs_node := ⟨.mk .file [] 0 []⟩

/-- Containment of an address in a region, the exact-arithmetic notion the
address-space collaborator decides. -/
def region_contains (r : region) (addr : Nat) : Prop :=
  r.base ≤ addr ∧ addr < r.base + r.size

instance (r : region) (addr : Nat) : Decidable (region_contains r addr) :=
  inferInstanceAs (Decidable (_ ∧ _))

/-- Trace of copies the readdir loop commits when every validation from
entry counter on succeeds with kernel addresses given by kaddr. -/
def expected_trace (kaddr : Nat → Nat) : Nat → List fs_node → List (Nat × dirent)
  | _, [] => []
  | counter, child :: rest => (kaddr counter, mk_dirent child) :: expected_trace kaddr (counter + 1) rest

/-- Syscall numbers handled by the dispatcher switch, plus a constructor
for every wire-level value outside the enumerated set (the default arm of
the switch).  The source keyword open is not a legal Lean name, hence the
trailing underscore. -/
inductive syscall_numbers where
  | exit
  | set_fs
  | set_gs
  | open_
  | close
  | write
  | pwrite
  | read
  | pread
  | ioctl
  | alloc_mem
  | start_process
  | wait_for_process
  | start_thread
  | stop_current_thread
  | join_thread
  | sleep
  | poweroff
  | readdir
  | unknown (n : Nat)
deriving DecidableEq, Repr

/-- Modelled from the spec: a kernel object held by the object manager,
polymorphic over the operation set used by the dispatcher; each operation
yields an operation_result. -/
structure kobject where
  write : Nat → Nat → operation_result
  pwrite : Nat → Nat → Nat → operation_result
  read : Nat → Nat → operation_result
  pread : Nat → Nat → Nat → operation_result
  ioctl : Nat → Nat → Nat → operation_result
  wait_for_status_change : operation_result
  join : operation_result

/-- Modelled from the spec: the collaborators the dispatcher reaches for a
given calling thread.  vfs_lookup takes a possibly-null path pointer
value decoded to its string; get_object is the per-process handle table
lookup; read_cstring decodes a u64 argument as a possibly-null C string
pointer; alloc_region_base gives the base of the region the address
space allocator returns; create_process yields the new process handle id
or none when creation fails; thread_object_id is the handle id wrapping
a freshly started thread. -/
structure syscall_env where
  vfs_lookup : Option (List Nat) → Option fs_node
  node_opens : fs_node → Bool
  file_object_id : Nat
  get_object : Nat → Option kobject
  regions : List region
  read_cstring : Nat → Option (List Nat)
  alloc_region_base : Nat → Nat
  create_process : Nat → Nat → Option Nat
  thread_object_id : Nat

/-- Shallow embedding of do_open (lines 31 to 45): resolve the path,
not_found when absent, not_supported when the node cannot be opened,
otherwise ok with the id of the freshly created file object. -/
def do_open (env : syscall_env) (path : Option (List Nat)) : syscall_result :=
  match env.vfs_lookup path with
  | none => ⟨.not_found, 0⟩
  | some node =>
    if env.node_opens node then ⟨.ok, env.file_object_id⟩
    else ⟨.not_supported, 0⟩

/-- Shallow embedding of handle_syscall (lines 156 to 298), the dispatcher
switch.  Branches that only mutate collaborator state (exit, set_fs,
set_gs, close, stop_current_thread, sleep, poweroff) are modelled by the
syscall_result they return; close frees the handle and returns ok
unconditionally, even for an invalid handle. -/
def handle_syscall (env : syscall_env) (index : syscall_numbers)
    (arg0 arg1 arg2 _arg3 : Nat) : syscall_result :=
  match index with
  | .exit => ⟨.ok, 0⟩
  | .set_fs => ⟨.ok, 0⟩
  | .set_gs => ⟨.ok, 0⟩
  | .open_ => do_open env (env.read_cstring arg0)
  | .close => ⟨.ok, 0⟩
  | .write =>
    match env.get_object arg0 with
    | none => ⟨.not_found, 0⟩
    | some o => operation_result_to_syscall_result (o.write arg1 arg2)
  | .pwrite =>
    match env.get_object arg0 with
    | none => ⟨.not_found, 0⟩
    | some o => operation_result_to_syscall_result (o.pwrite arg1 arg2 _arg3)
  | .read =>
    match env.get_object arg0 with
    | none => ⟨.not_found, 0⟩
    | some o => operation_result_to_syscall_result (o.read arg1 arg2)
  | .pread =>
    match env.get_object arg0 with
    | none => ⟨.not_found, 0⟩
    | some o => operation_result_to_syscall_result (o.pread arg1 arg2 _arg3)
  | .ioctl =>
    match env.get_object arg0 with
    | none => ⟨.not_found, 0⟩
    | some o => operation_result_to_syscall_result (o.ioctl arg1 arg2 _arg3)
  | .alloc_mem => ⟨.ok, env.alloc_region_base arg0⟩
  | .start_process =>
    match env.create_process arg0 arg1 with
    | none => ⟨.not_found, 0⟩
    | some h => ⟨.ok, h⟩
  | .wait_for_process =>
    match env.get_object arg0 with
    | none => ⟨.not_found, 0⟩
    | some o => operation_result_to_syscall_result o.wait_for_status_change
  | .start_thread => ⟨.ok, env.thread_object_id⟩
  | .stop_current_thread => ⟨.ok, 0⟩
  | .join_thread =>
    match env.get_object arg0 with
    | none => ⟨.not_found, 0⟩
    | some o => operation_result_to_syscall_result o.join
  | .sleep => ⟨.ok, 0⟩
  | .poweroff => ⟨.ok, 0⟩
  | .readdir =>
    (do_readdir ⟨fun s => env.vfs_lookup (some s), env.regions⟩
      (env.read_cstring arg0) arg1 arg2).1
  | .unknown _ => ⟨.not_supported, 0⟩

/-- Outcome of the ls command-line tool: either a listing request passed
to the ls helper (long flag plus path string) or the usage error. -/
inductive ls_action where
  | list (long : Bool) (path : List Nat)
  | usage
deriving DecidableEq, Repr

/-- Outcome of the ls main function: the action taken plus the process
exit status. -/
structure ls_result where
  action : ls_action
  status : Nat
deriving DecidableEq, Repr

/-- Word extraction loop of the ls main function (lines 74 to 76 and 85 to
87 of main.cpp): consume characters until end of input, a space (byte
32), or the 127-character capacity of the argument buffer is reached,
returning the extracted word and the unconsumed remainder. -/
def grabArg : Nat → List Nat → List Nat × List Nat
  | _, [] => ([], [])
  | cap, c :: cs =>
    if c = 32 then ([], c :: cs)
    else if cap = 0 then ([], c :: cs)
    else
      let p := grabArg (cap - 1) cs
      (c :: p.1, p.2)

/-- Shallow embedding of the ls main function (lines 55 to 112 of
main.cpp).  A null or empty command line lists the root in short form;
otherwise the first word and, after skipping spaces, the second word are
extracted positionally; a lone -l lists the root long, a lone word is a
short-form path, -l plus a word is a long-form path, and any other
two-word shape prints usage and exits 1. -/
def ls_main (cmdline : Option (List Nat)) : ls_result :=
  match cmdline with
  | none => ⟨.list false [], 0⟩
  | some l =>
    if l.length = 0 then ⟨.list false [], 0⟩
    else
      let p1 := grabArg 127 l
      let r2 := p1.2.dropWhile (fun c => c = 32)
      let p2 := grabArg 127 r2
      if p2.1 = [] then
        if p1.1 = [45, 108] then ⟨.list true [], 0⟩ else ⟨.list false p1.1, 0⟩
      else
        if p1.1 = [45, 108] then ⟨.list true p2.1, 0⟩ else ⟨.usage, 1⟩

/-- Helper for str_tokens: accumulate the current word (reversed) while
scanning. -/
def tokensAux : List Nat → List Nat → List (List Nat)
  | [], cur => if cur = [] then [] else [cur.reverse]
  | c :: cs, cur =>
    if c = 32 then
      if cur = [] then tokensAux cs [] else cur.reverse :: tokensAux cs []
    else tokensAux cs (c :: cur)

/-- Whitespace-separated tokens of a command line, the notion the spec
uses to describe the ls interface: maximal runs of non-space bytes, in
order.  This definition follows the words of the spec, for comparison
with the positional parser ls_main embeds from the source. -/
def str_tokens (l : List Nat) : List (List Nat) :=
  tokensAux l []

/-- Concrete writable region for test instances: 4096 bytes at 4096,
backed by kernel storage at 9000. -/
def regionW : region := ⟨4096, 4096, true, 9000⟩

/-- Concrete file node a.txt of 120 bytes, from the end-to-end spec example. -/
def nodeA : fs_node := .mk .file [97, 46, 116, 120, 116] 120 []

/-- Concrete empty subdirectory named sub. -/
def nodeSub : fs_node := .mk .directory [115, 117, 98] 0 []

/-- Concrete directory with two children, the file a.txt then the
subdirectory sub. -/
def nodeDocs : fs_node := .mk .directory [100, 111, 99, 115] 0 [nodeA, nodeSub]

/-- Concrete file node named b whose byte size is 2 to the 32. -/
def nodeBig : fs_node := .mk .file [98] (2 ^ 32) []

/-- Concrete directory holding only nodeBig. -/
def nodeBigDir : fs_node := .mk .directory [100] 0 [nodeBig]

/-- Concrete file node whose name is 70 bytes long. -/
def nodeLongName : fs_node := .mk .file (List.replicate 70 65) 5 []

/-- Concrete readdir environment: the path bytes of /d resolve nodeDocs,
the path bytes of /a resolve the plain file nodeA, everything else is
absent; one writable region. -/
def envW : readdir_env :=
  { lookup := fun p =>
      if p = [47, 100] then some nodeDocs
      else if p = [47, 97] then some nodeA
      else none
    regions := [regionW] }

/-- Concrete readdir environment whose single region is exactly one
dirent wide, so the destination of entry 1 fails validation. -/
def envNarrow : readdir_env :=
  { lookup := fun p => if p = [47, 100] then some nodeDocs else none
    regions := [⟨4096, 72, true, 9000⟩] }

/-- Concrete readdir environment resolving /d to the directory holding
the 2 to the 32 byte file. -/
def envBig : readdir_env :=
  { lookup := fun p => if p = [47, 100] then some nodeBigDir else none
    regions := [regionW] }

/-- Concrete kernel object whose operations return distinguishable
results derived from their arguments. -/
def objW : kobject :=
  { write := fun a b => ⟨.ok, 1000 + a + b⟩
    pwrite := fun a b c => ⟨.ok, 2000 + a + b + c⟩
    read := fun a b => ⟨.ok, 3000 + a + b⟩
    pread := fun a b c => ⟨.ok, 4000 + a + b + c⟩
    ioctl := fun a b c => ⟨.ok, 5000 + a + b + c⟩
    wait_for_status_change := ⟨.ok, 6000⟩
    join := ⟨.ok, 7000⟩ }

/-- Concrete dispatcher environment whose handle table is empty. -/
def envSysNone : syscall_env :=
  { vfs_lookup := fun _ => none
    node_opens := fun _ => false
    file_object_id := 0
    get_object := fun _ => none
    regions := []
    read_cstring := fun _ => none
    alloc_region_base := fun _ => 0
    create_process := fun _ _ => none
    thread_object_id := 0 }

/-- Concrete dispatcher environment whose handle table maps every id to
objW. -/
def envSysSome : syscall_env :=
  { envSysNone with get_object := fun _ => some objW }

/- Helper lemmas about the region lookup. -/

theorem get_region_cons (s : region) (rest : List region) (addr : Nat) :
    get_region_from_address (s :: rest) addr =
      if region_contains s addr then some s else get_region_from_address rest addr := by
  by_cases h : region_contains s addr
  · rw [if_pos h]
    unfold get_region_from_address
    exact List.find?_cons_of_pos _ (by simp [region_contains] at h; simp [h.1, h.2])
  · rw [if_neg h]
    unfold get_region_from_address
    refine List.find?_cons_of_neg _ ?_
    simp only [region_contains, not_and] at h
    simp only [Bool.and_eq_true, decide_eq_true_eq, not_and]
    exact fun h1 => h h1

theorem get_region_eq_none_iff (regions : List region) (addr : Nat) :
    get_region_from_address regions addr = none ↔
      ∀ r ∈ regions, ¬ region_contains r addr := by
  unfold get_region_from_address
  rw [List.find?_eq_none]
  constructor
  · intro h r hr hc
    have := h r hr
    simp only [region_contains] at hc
    simp [hc.1, hc.2] at this
  · intro h r hr
    have := h r hr
    simp only [region_contains, not_and] at this
    simp only [Bool.and_eq_true, decide_eq_true_eq, not_and]
    exact fun h1 => this h1

theorem get_region_eq_some_iff (regions : List region) (addr : Nat)
    (hd : regions.Pairwise (fun r s => ∀ a, ¬(region_contains r a ∧ region_contains s a)))
    (r : region) :
    get_region_from_address regions addr = some r ↔
      r ∈ regions ∧ region_contains r addr := by
  induction regions with
  | nil => simp [get_region_from_address]
  | cons s rest ih =>
    rcases List.pairwise_cons.mp hd with ⟨hds, hdrest⟩
    rw [get_region_cons]
    by_cases hs : region_contains s addr
    · rw [if_pos hs]
      constructor
      · intro h
        cases h
        exact ⟨List.mem_cons_self _ _, hs⟩
      · rintro ⟨hmem, hc⟩
        rcases List.mem_cons.mp hmem with rfl | hmem
        · rfl
        · exact absurd ⟨hs, hc⟩ (hds r hmem addr)
    · rw [if_neg hs, ih hdrest]
      constructor
      · rintro ⟨hmem, hc⟩
        exact ⟨List.mem_cons_of_mem _ hmem, hc⟩
      · rintro ⟨hmem, hc⟩
        rcases List.mem_cons.mp hmem with rfl | hmem
        · exact absurd hc hs
        · exact ⟨hmem, hc⟩

/- Helper lemmas about the readdir iteration. -/

theorem expected_trace_length (kaddr : Nat → Nat) :
    ∀ (children : List fs_node) (counter : Nat),
      (expected_trace kaddr counter children).length = children.length := by
  intro children
  induction children with
  | nil => intro counter; rfl
  | cons c rest ih => intro counter; simp [expected_trace, ih]

theorem expected_trace_getD (kaddr : Nat → Nat) :
    ∀ (children : List fs_node) (counter i : Nat), i < children.length →
      (expected_trace kaddr counter children).getD i default =
        (kaddr (counter + i), mk_dirent (children.getD i default)) := by
  intro children
  induction children with
  | nil => intro counter i h; simp at h
  | cons c rest ih =>
    intro counter i h
    cases i with
    | zero => simp [expected_trace]
    | succ j =>
      have hj : j < rest.length := by simpa using h
      simp only [expected_trace, List.getD_cons_succ]
      rw [ih (counter + 1) j hj]
      have : counter + 1 + j = counter + (j + 1) := by omega
      rw [this]

theorem readdir_loop_runs_out (regions : List region) (buf max_entries : Nat)
    (kaddr : Nat → Nat) :
    ∀ (children : List fs_node) (counter : Nat) (acc : List (Nat × dirent)),
      counter + children.length ≤ max_entries →
      (∀ i, i < children.length →
        validate_user_address regions ((buf + sizeof_dirent * (counter + i)) % 2 ^ 64)
          sizeof_dirent = some (kaddr (counter + i))) →
      readdir_loop regions buf max_entries children counter acc =
        (⟨.ok, counter + children.length⟩, acc ++ expected_trace kaddr counter children) := by
  intro children
  induction children with
  | nil => intro counter acc _ _; simp [readdir_loop, expected_trace]
  | cons c rest ih =>
    intro counter acc hle hval
    have hlt : ¬ max_entries ≤ counter := by simp at hle ⊢; omega
    have hv0 := hval 0 (by simp)
    rw [Nat.add_zero] at hv0
    rw [readdir_loop, if_neg hlt]
    simp only [hv0]
    rw [ih (counter + 1) (acc ++ [(kaddr counter, mk_dirent c)])
      (by simp at hle ⊢; omega)
      (fun i hi => by
        have := hval (i + 1) (by simpa using Nat.succ_lt_succ hi)
        rwa [show counter + (i + 1) = counter + 1 + i by omega] at this)]
    simp [expected_trace]
    omega

theorem readdir_loop_hits_cap (regions : List region) (buf max_entries : Nat)
    (kaddr : Nat → Nat) :
    ∀ (children : List fs_node) (counter : Nat) (acc : List (Nat × dirent)),
      counter ≤ max_entries →
      max_entries - counter ≤ children.length →
      (∀ i, i < max_entries - counter →
        validate_user_address regions ((buf + sizeof_dirent * (counter + i)) % 2 ^ 64)
          sizeof_dirent = some (kaddr (counter + i))) →
      readdir_loop regions buf max_entries children counter acc =
        (⟨.ok, max_entries⟩,
          acc ++ expected_trace kaddr counter (children.take (max_entries - counter))) := by
  intro children
  induction children with
  | nil =>
    intro counter acc hle hrem _
    have : max_entries = counter := by simp at hrem; omega
    subst this
    simp [readdir_loop, expected_trace]
  | cons c rest ih =>
    intro counter acc hle hrem hval
    by_cases hstop : max_entries ≤ counter
    · have : max_entries = counter := by omega
      subst this
      rw [readdir_loop, if_pos (Nat.le_refl _)]
      simp [expected_trace]
    · have hv0 := hval 0 (by omega)
      rw [Nat.add_zero] at hv0
      rw [readdir_loop, if_neg hstop]
      simp only [hv0]
      rw [ih (counter + 1) (acc ++ [(kaddr counter, mk_dirent c)])
        (by omega)
        (by simp at hrem ⊢; omega)
        (fun i hi => by
          have := hval (i + 1) (by omega)
          rwa [show counter + (i + 1) = counter + 1 + i by omega] at this)]
      have htake : (c :: rest).take (max_entries - counter) =
          c :: rest.take (max_entries - (counter + 1)) := by
        have : max_entries - counter = (max_entries - (counter + 1)) + 1 := by omega
        rw [this, List.take_succ_cons]
      rw [htake]
      simp [expected_trace]

theorem readdir_loop_fails (regions : List region) (buf max_entries : Nat)
    (kaddr : Nat → Nat) :
    ∀ (j : Nat) (children : List fs_node) (counter : Nat) (acc : List (Nat × dirent)),
      j < children.length →
      counter + j < max_entries →
      (∀ i, i < j →
        validate_user_address regions ((buf + sizeof_dirent * (counter + i)) % 2 ^ 64)
          sizeof_dirent = some (kaddr (counter + i))) →
      validate_user_address regions ((buf + sizeof_dirent * (counter + j)) % 2 ^ 64)
        sizeof_dirent = none →
      readdir_loop regions buf max_entries children counter acc =
        (⟨.not_supported, 0⟩, acc ++ expected_trace kaddr counter (children.take j)) := by
  intro j
  induction j with
  | zero =>
    intro children counter acc hlen hcap _ hfail
    cases children with
    | nil => simp at hlen
    | cons c rest =>
      have hlt : ¬ max_entries ≤ counter := by omega
      rw [Nat.add_zero] at hfail
      rw [readdir_loop, if_neg hlt]
      simp only [hfail]
      simp [expected_trace]
  | succ j ih =>
    intro children counter acc hlen hcap hval hfail
    cases children with
    | nil => simp at hlen
    | cons c rest =>
      have hlt : ¬ max_entries ≤ counter := by omega
      have hv0 := hval 0 (by omega)
      rw [Nat.add_zero] at hv0
      rw [readdir_loop, if_neg hlt]
      simp only [hv0]
      rw [ih rest (counter + 1) (acc ++ [(kaddr counter, mk_dirent c)])
        (by simpa using hlen)
        (by omega)
        (fun i hi => by
          have := hval (i + 1) (by omega)
          rwa [show counter + (i + 1) = counter + 1 + i by omega] at this)
        (by rwa [show counter + 1 + j = counter + (j + 1) by omega])]
      simp [expected_trace]

theorem do_readdir_directory (env : readdir_env) (cs : List Nat) (buf max_entries : Nat)
    (node : fs_node) (hres : env.lookup (47 :: cs) = some node)
    (hdir : node.kind = fs_node_kind.directory) :
    do_readdir env (some (47 :: cs)) buf max_entries =
      readdir_loop env.regions buf max_entries node.children 0 [] := by
  simp [do_readdir, hres, hdir]

theorem getD_take_of_lt {α : Type} [Inhabited α] (l : List α) (k i : Nat) (h : i < k) :
    (l.take k).getD i default = l.getD i default := by
  rw [List.getD_eq_getElem?_getD, List.getD_eq_getElem?_getD, List.getElem?_take_of_lt h]

/-- C3: with valid destinations, a cap k smaller than the child count
yields ok with data k and exactly the first k children in order, never a
record past the cap; and a cap of 0 yields ok with data 0 and no copy at
all, whatever the children are. -/
theorem claim_C3 :
    (∀ (env : readdir_env) (cs : List Nat) (buf k : Nat) (node : fs_node) (kaddr : Nat → Nat),
      env.lookup (47 :: cs) = some node →
      node.kind = fs_node_kind.directory →
      k < node.children.length →
      (∀ i, i < k →
        validate_user_address env.regions ((buf + sizeof_dirent * i) % 2 ^ 64) sizeof_dirent
          = some (kaddr i)) →
      (do_readdir env (some (47 :: cs)) buf k).1 = ⟨.ok, k⟩ ∧
      (do_readdir env (some (47 :: cs)) buf k).2.length = k ∧
      (∀ i, i < k →
        (do_readdir env (some (47 :: cs)) buf k).2.getD i default =
          (kaddr i, mk_dirent (node.children.getD i default)))) ∧
    (∀ (env : readdir_env) (cs : List Nat) (buf : Nat) (node : fs_node),
      env.lookup (47 :: cs) = some node →
      node.kind = fs_node_kind.directory →
      do_readdir env (some (47 :: cs)) buf 0 = (⟨.ok, 0⟩, [])) := by
  constructor
  · intro env cs buf k node kaddr hres hdir hk hval
    rw [do_readdir_directory env cs buf k node hres hdir]
    rw [readdir_loop_hits_cap env.regions buf k kaddr node.children 0 []
      (Nat.zero_le _) (by simpa using Nat.le_of_lt hk)
      (fun i hi => by simpa using hval i (by omega))]
    simp only [Nat.sub_zero, List.nil_append]
    refine ⟨trivial, ?_, ?_⟩
    · rw [expected_trace_length, List.length_take]
      omega
    · intro i hi
      rw [expected_trace_getD kaddr _ 0 i
        (by rw [List.length_take]; omega)]
      rw [Nat.zero_add, getD_take_of_lt node.children k i hi]
  · intro env cs buf node hres hdir
    rw [do_readdir_directory env cs buf 0 node hres hdir]
    cases node.children with
    | nil => rfl
    | cons c rest => simp [readdir_loop]

/-- Witness for C3: the two-child directory /d with cap 1 produces only
the record for a.txt, and cap 0 produces nothing. -/
theorem claim_C3_witness :
    (do_readdir envW (some [47, 100]) 4096 1).1 = ⟨.ok, 1⟩ ∧
    (do_readdir envW (some [47, 100]) 4096 1).2.length = 1 ∧
    do_readdir envW (some [47, 100]) 4096 0 = (⟨.ok, 0⟩, []) :=
  ⟨(claim_C3.1 envW [100] 4096 1 nodeDocs (fun i => 9000 + 72 * i) rfl rfl
      (by decide) (by decide)).1,
   (claim_C3.1 envW [100] 4096 1 nodeDocs (fun i => 9000 + 72 * i) rfl rfl
      (by decide) (by decide)).2.1,
   claim_C3.2 envW [100] 4096 nodeDocs rfl rfl⟩

/-- C6: when validation fails at entry k after k successful entries, the
call returns not_supported at once, iterates no further, and the k
records already copied stay committed (no rollback). -/
theorem claim_C6 (env : readdir_env) (cs : List Nat) (buf max_entries k : Nat)
    (node : fs_node) (kaddr : Nat → Nat)
    (hres : env.lookup (47 :: cs) = some node)
    (hdir : node.kind = fs_node_kind.directory)
    (hk0 : 0 < k)
    (hklen : k < node.children.length)
    (hkmax : k < max_entries)
    (hval : ∀ i, i < k →
      validate_user_address env.regions ((buf + sizeof_dirent * i) % 2 ^ 64) sizeof_dirent
        = some (kaddr i))
    (hfail : validate_user_address env.regions ((buf + sizeof_dirent * k) % 2 ^ 64) sizeof_dirent
        = none) :
    (do_readdir env (some (47 :: cs)) buf max_entries).1 = ⟨.not_supported, 0⟩ ∧
    (do_readdir env (some (47 :: cs)) buf max_entries).2.length = k ∧
    (∀ i, i < k →
      (do_readdir env (some (47 :: cs)) buf max_entries).2.getD i default =
        (kaddr i, mk_dirent (node.children.getD i default))) := by
  rw [do_readdir_directory env cs buf max_entries node hres hdir]
  rw [readdir_loop_fails env.regions buf max_entries kaddr k node.children 0 []
    hklen (by omega)
    (fun i hi => by simpa using hval i hi)
    (by simpa using hfail)]
  simp only [List.nil_append]
  refine ⟨trivial, ?_, ?_⟩
  · rw [expected_trace_length, List.length_take]
    omega
  · intro i hi
    rw [expected_trace_getD kaddr _ 0 i (by rw [List.length_take]; omega)]
    rw [Nat.zero_add, getD_take_of_lt node.children k i hi]

/-- Witness for C6: with a region exactly one record wide, enumerating
the two-child directory fails at entry 1 but keeps the record of entry
0 committed. -/
theorem claim_C6_witness :
    (do_readdir envNarrow (some [47, 100]) 4096 256).1 = ⟨.not_supported, 0⟩ ∧
    (do_readdir envNarrow (some [47, 100]) 4096 256).2.length = 1 ∧
    (do_readdir envNarrow (some [47, 100]) 4096 256).2.getD 0 default =
      (9000, mk_dirent nodeA) := by
  have h := claim_C6 envNarrow [100] 4096 256 1 nodeDocs (fun i => 9000 + 72 * i)
    rfl rfl (by decide) (by decide) (by decide) (by decide) (by decide)
  refine ⟨h.1, h.2.1, ?_⟩
  have h0 := h.2.2 0 (by decide)
  simpa [nodeDocs, fs_node.children] using h0

/-- C4: do_readdir path handling: an empty path is resolved identically to
the root path; a path not beginning with a slash returns not_supported
for every filesystem (so without consulting it); a path whose lookup
yields no node returns not_found; a resolved non-directory node returns
not_supported. -/
theorem claim_C4 :
    (∀ (env : readdir_env) (buf n : Nat),
      do_readdir env (some []) buf n = do_readdir env (some [47]) buf n) ∧
    (∀ (env : readdir_env) (c : Nat) (cs : List Nat) (buf n : Nat), c ≠ 47 →
      do_readdir env (some (c :: cs)) buf n = (⟨.not_supported, 0⟩, [])) ∧
    (∀ (env : readdir_env) (cs : List Nat) (buf n : Nat),
      env.lookup (47 :: cs) = none →
      do_readdir env (some (47 :: cs)) buf n = (⟨.not_found, 0⟩, [])) ∧
    (∀ (env : readdir_env) (cs : List Nat) (buf n : Nat) (node : fs_node),
      env.lookup (47 :: cs) = some node → node.kind ≠ fs_node_kind.directory →
      do_readdir env (some (47 :: cs)) buf n = (⟨.not_supported, 0⟩, [])) := by
  refine ⟨fun env buf n => rfl, fun env c cs buf n h => ?_, fun env cs buf n h => ?_,
    fun env cs buf n node h hk => ?_⟩
  · simp [do_readdir, h]
  · simp [do_readdir, h]
  · simp [do_readdir, h, hk]

/-- Witness for C4 at concrete inputs: a relative path, a missing path,
and a path resolving to a plain file. -/
theorem claim_C4_witness :
    do_readdir envW (some [100]) 4096 4 = (⟨.not_supported, 0⟩, []) ∧
    do_readdir envW (some [47, 120]) 4096 4 = (⟨.not_found, 0⟩, []) ∧
    do_readdir envW (some [47, 97]) 4096 4 = (⟨.not_supported, 0⟩, []) :=
  ⟨claim_C4.2.1 envW 100 [] 4096 4 (by decide),
   claim_C4.2.2.1 envW [120] 4096 4 rfl,
   claim_C4.2.2.2 envW [97] 4096 4 nodeA rfl (by decide)⟩

/-- C5: the dirent name buffer is always 64 bytes with a NUL terminator
inside it: a source name of length at least 64 is copied as its first 63
bytes plus a NUL, a shorter name is copied whole followed by NUL padding
(the record is zero-initialized), and no byte outside the 64-byte array
is produced. -/
theorem claim_C5 (child : fs_node) :
    (mk_dirent child).name.length = 64 ∧
    (mk_dirent child).name.getD (min child.name.length 63) 0 = 0 ∧
    (64 ≤ child.name.length →
      (mk_dirent child).name = child.name.take 63 ++ [0]) ∧
    (child.name.length < 64 →
      (mk_dirent child).name = child.name ++ List.replicate (64 - child.name.length) 0) := by
  unfold mk_dirent MAX_FILE_NAME_LENGTH
  simp only [show (64 : Nat) - 1 = 63 from rfl]
  by_cases h : 64 ≤ child.name.length
  · simp only [if_pos h]
    have hmin : min child.name.length 63 = 63 := by omega
    have htk : (child.name.take 63).length = 63 := by
      rw [List.length_take]; omega
    refine ⟨?_, ?_, fun _ => rfl, fun hlt => absurd h (by omega)⟩
    · simp [htk]
    · rw [hmin, List.getD_eq_getElem?_getD, List.getElem?_append_right (le_of_eq htk)]
      simp [htk]
  · simp only [if_neg h]
    have htk : child.name.take child.name.length = child.name := List.take_length child.name
    have hmin : min child.name.length 63 = child.name.length := by omega
    refine ⟨?_, ?_, fun hge => absurd hge h, fun _ => by rw [htk]⟩
    · simp; omega
    · rw [hmin, htk, List.getD_eq_getElem?_getD, List.getElem?_append_right (by omega)]
      simp only [Nat.sub_self]
      have : 0 < 64 - child.name.length := by omega
      cases hrep : (64 - child.name.length) with
      | zero => omega
      | succ m => simp [List.replicate_succ]

/-- Witness for C5: the 70-byte name is truncated to 63 bytes plus NUL,
and the 5-byte name a.txt is padded with zeros. -/
theorem claim_C5_witness :
    (mk_dirent nodeLongName).name = nodeLongName.name.take 63 ++ [0] ∧
    (mk_dirent nodeA).name = nodeA.name ++ List.replicate (64 - nodeA.name.length) 0 :=
  ⟨(claim_C5 nodeLongName).2.2.1 (by decide),
   (claim_C5 nodeA).2.2.2 (by decide)⟩

/-- C7: the dispatcher is total on unrecognized opcodes: every wire value
outside the enumerated syscall set returns not_supported with data 0,
for all arguments and all collaborator environments. -/
theorem claim_C7 (env : syscall_env) (n a0 a1 a2 a3 : Nat) :
    handle_syscall env (.unknown n) a0 a1 a2 a3 = ⟨.not_supported, 0⟩ := rfl

/-- C8: for the handle-consuming opcodes, an absent handle gives
not_found with data 0 and a present handle delegates to the objects
operation, translated; close returns ok with data 0 unconditionally. -/
theorem claim_C8 (env : syscall_env) (a0 a1 a2 a3 : Nat) :
    (env.get_object a0 = none →
      handle_syscall env .write a0 a1 a2 a3 = ⟨.not_found, 0⟩ ∧
      handle_syscall env .pwrite a0 a1 a2 a3 = ⟨.not_found, 0⟩ ∧
      handle_syscall env .read a0 a1 a2 a3 = ⟨.not_found, 0⟩ ∧
      handle_syscall env .pread a0 a1 a2 a3 = ⟨.not_found, 0⟩ ∧
      handle_syscall env .ioctl a0 a1 a2 a3 = ⟨.not_found, 0⟩ ∧
      handle_syscall env .wait_for_process a0 a1 a2 a3 = ⟨.not_found, 0⟩ ∧
      handle_syscall env .join_thread a0 a1 a2 a3 = ⟨.not_found, 0⟩) ∧
    (∀ o, env.get_object a0 = some o →
      handle_syscall env .write a0 a1 a2 a3
        = operation_result_to_syscall_result (o.write a1 a2) ∧
      handle_syscall env .pwrite a0 a1 a2 a3
        = operation_result_to_syscall_result (o.pwrite a1 a2 a3) ∧
      handle_syscall env .read a0 a1 a2 a3
        = operation_result_to_syscall_result (o.read a1 a2) ∧
      handle_syscall env .pread a0 a1 a2 a3
        = operation_result_to_syscall_result (o.pread a1 a2 a3) ∧
      handle_syscall env .ioctl a0 a1 a2 a3
        = operation_result_to_syscall_result (o.ioctl a1 a2 a3) ∧
      handle_syscall env .wait_for_process a0 a1 a2 a3
        = operation_result_to_syscall_result o.wait_for_status_change ∧
      handle_syscall env .join_thread a0 a1 a2 a3
        = operation_result_to_syscall_result o.join) ∧
    handle_syscall env .close a0 a1 a2 a3 = ⟨.ok, 0⟩ := by
  refine ⟨fun h => ?_, fun o h => ?_, rfl⟩
  · simp [handle_syscall, h]
  · simp [handle_syscall, h]

/-- Witness for C8: an empty handle table gives not_found on write, a
populated one delegates to the object, and close returns ok either way. -/
theorem claim_C8_witness :
    handle_syscall envSysNone .write 1 2 3 4 = ⟨.not_found, 0⟩ ∧
    handle_syscall envSysSome .write 1 2 3 4 = ⟨.ok, 1005⟩ ∧
    handle_syscall envSysNone .close 1 2 3 4 = ⟨.ok, 0⟩ :=
  ⟨((claim_C8 envSysNone 1 2 3 4).1 rfl).1,
   (((claim_C8 envSysSome 1 2 3 4).2.1 objW rfl).1).trans (by decide),
   (claim_C8 envSysNone 1 2 3 4).2.2⟩

/-- C10: a null path pointer behaves exactly like an empty path: both
resolve the root directory, for every environment, buffer and entry
count. -/
theorem claim_C10 (env : readdir_env) (buf max_entries : Nat) :
    do_readdir env none buf max_entries = do_readdir env (some []) buf max_entries := rfl

/-- Counterexample to C1 as stated: the source compares addresses in u64
arithmetic, not exact arithmetic.  For the region starting 100 bytes
below 2 to the 64 with 50 bytes of size, the destination 72 bytes below
the top is contained in the region and, in exact arithmetic, the
destination plus the record size exceeds base plus size, so the claim
demands a not_supported failure; but the u64 sum wraps to 0 and the
source check passes, so validation succeeds and yields a copy address. -/
theorem claim_C1_counterexample :
    region_contains ⟨2 ^ 64 - 100, 50, true, 555⟩ (2 ^ 64 - 72) ∧
    (2 ^ 64 - 100) + 50 < (2 ^ 64 - 72) + sizeof_dirent ∧
    validate_user_address [⟨2 ^ 64 - 100, 50, true, 555⟩] (2 ^ 64 - 72) sizeof_dirent
      = some 583 := by
  refine ⟨⟨by norm_num, by norm_num⟩, by norm_num [sizeof_dirent], ?_⟩
  decide

/-- C1 amended: the validation in do_readdir fails exactly when no region
of the caller contains the destination address, or the destination plus
the dirent size exceeds the containing region bound with both sums
reduced modulo 2 to the 64 (u64 arithmetic, not exact arithmetic), or
the containing region is not writable; otherwise it yields the kernel
address storage base plus offset, again as a u64 value.  The region set
is assumed pairwise disjoint, as the spec requires of an address space. -/
theorem claim_C1_amended (regions : List region) (addr : Nat)
    (hd : regions.Pairwise (fun r s => ∀ a, ¬(region_contains r a ∧ region_contains s a))) :
    (validate_user_address regions addr sizeof_dirent = none ↔
      (∀ r ∈ regions, ¬ region_contains r addr) ∨
      (∃ r ∈ regions, region_contains r addr ∧
        ((r.base + r.size) % 2 ^ 64 < (addr + sizeof_dirent) % 2 ^ 64 ∨ r.writable = false))) ∧
    (∀ k, validate_user_address regions addr sizeof_dirent = some k ↔
      (∃ r ∈ regions, region_contains r addr ∧
        (addr + sizeof_dirent) % 2 ^ 64 ≤ (r.base + r.size) % 2 ^ 64 ∧ r.writable = true ∧
        k = (r.storage_base + (addr - r.base)) % 2 ^ 64)) := by
  cases hg : get_region_from_address regions addr with
  | none =>
    have hnone := (get_region_eq_none_iff regions addr).mp hg
    have hv : validate_user_address regions addr sizeof_dirent = none := by
      unfold validate_user_address
      rw [hg]
    rw [hv]
    constructor
    · exact iff_of_true rfl (Or.inl hnone)
    · intro k
      refine iff_of_false (by simp) ?_
      rintro ⟨r, hmem, hc, -⟩
      exact hnone r hmem hc
  | some r =>
    have hr := (get_region_eq_some_iff regions addr hd r).mp hg
    have huniq : ∀ s ∈ regions, region_contains s addr → s = r := by
      intro s hmem hc
      have h2 := (get_region_eq_some_iff regions addr hd s).mpr ⟨hmem, hc⟩
      rw [hg] at h2
      exact ((Option.some.injEq _ _).mp h2).symm
    have hv : validate_user_address regions addr sizeof_dirent =
        if (r.base + r.size) % 2 ^ 64 < (addr + sizeof_dirent) % 2 ^ 64 then none
        else if r.writable = false then none
        else some ((r.storage_base + (addr - r.base)) % 2 ^ 64) := by
      unfold validate_user_address
      rw [hg]
    rw [hv]
    by_cases hb : (r.base + r.size) % 2 ^ 64 < (addr + sizeof_dirent) % 2 ^ 64
    · rw [if_pos hb]
      constructor
      · exact iff_of_true rfl (Or.inr ⟨r, hr.1, hr.2, Or.inl hb⟩)
      · intro k
        refine iff_of_false (by simp) ?_
        rintro ⟨s, hmem, hc, hle, -, -⟩
        rw [huniq s hmem hc] at hle
        omega
    · rw [if_neg hb]
      by_cases hw : r.writable = false
      · rw [if_pos hw]
        constructor
        · exact iff_of_true rfl (Or.inr ⟨r, hr.1, hr.2, Or.inr hw⟩)
        · intro k
          refine iff_of_false (by simp) ?_
          rintro ⟨s, hmem, hc, -, hwt, -⟩
          rw [huniq s hmem hc] at hwt
          rw [hwt] at hw
          cases hw
      · rw [if_neg hw]
        have hwt : r.writable = true := by
          cases hvw : r.writable
          · exact absurd hvw hw
          · rfl
        constructor
        · refine iff_of_false (by simp) ?_
          rintro (hall | ⟨s, hmem, hc, hbad⟩)
          · exact hall r hr.1 hr.2
          · rw [huniq s hmem hc] at hbad
            rcases hbad with hbad | hbad
            · omega
            · rw [hbad] at hwt; cases hwt
        · intro k
          constructor
          · intro hk
            have hkv : k = (r.storage_base + (addr - r.base)) % 2 ^ 64 :=
              ((Option.some.injEq _ _).mp hk).symm
            exact ⟨r, hr.1, hr.2, by omega, hwt, hkv⟩
          · rintro ⟨s, hmem, hc, hle, hsw, hk⟩
            rw [huniq s hmem hc] at hk
            rw [hk]

/-- Witness for C1 amended: a singleton writable region at 4096 validates
address 4096 and produces the kernel copy address 9000, matched by the
existential characterisation. -/
theorem claim_C1_amended_witness :
    ∃ r ∈ [regionW], region_contains r 4096 ∧
      (4096 + sizeof_dirent) % 2 ^ 64 ≤ (r.base + r.size) % 2 ^ 64 ∧ r.writable = true ∧
      9000 = (r.storage_base + (4096 - r.base)) % 2 ^ 64 :=
  ((claim_C1_amended [regionW] 4096 (by simp)).2 9000).mp (by decide)

theorem mk_dirent_eq (child : fs_node) :
    mk_dirent child =
      { name := child.name.take (min child.name.length 63) ++
          List.replicate (64 - min child.name.length 63) 0
        type := if child.kind = fs_node_kind.directory then 100 else 102
        size := if child.kind = fs_node_kind.file then child.size % 2 ^ 32 else 0 } := by
  have hlen : (if MAX_FILE_NAME_LENGTH ≤ child.name.length then MAX_FILE_NAME_LENGTH - 1
      else child.name.length) = min child.name.length 63 := by
    unfold MAX_FILE_NAME_LENGTH
    split <;> omega
  simp only [mk_dirent]
  rw [hlen]
  rfl

/-- Counterexample to C2 as stated: the source narrows the child byte
size to u32 when filling the record.  The directory behind envBig has a
single child file whose byte size is 2 to the 32; with a valid
destination and a cap of 4 the call succeeds with data 1, but the record
written carries size 0, not the child byte size, so the records do not
match the children exactly as the claim requires. -/
theorem claim_C2_counterexample :
    fs_node.kind nodeBigDir = fs_node_kind.directory ∧
    fs_node.children nodeBigDir = [nodeBig] ∧
    fs_node.size nodeBig = 2 ^ 32 ∧
    (do_readdir envBig (some [47, 100]) 4096 4).1 = ⟨.ok, 1⟩ ∧
    ((do_readdir envBig (some [47, 100]) 4096 4).2.getD 0 default).2.size = 0 ∧
    (0 : Nat) ≠ 2 ^ 32 := by
  refine ⟨rfl, rfl, rfl, ?_, ?_, by norm_num⟩ <;> decide

/-- C2 amended: for a directory with N children and a cap of at least N,
with every destination validating, do_readdir returns ok with data N and
the i-th record carries the i-th child name truncated per the invariant,
the type byte from the child kind, and the child byte size reduced
modulo 2 to the 32 for files (the u32 narrowing the source performs) and
0 for directories, in iteration order. -/
theorem claim_C2_amended (env : readdir_env) (cs : List Nat) (buf max_entries : Nat)
    (node : fs_node) (kaddr : Nat → Nat)
    (hres : env.lookup (47 :: cs) = some node)
    (hdir : node.kind = fs_node_kind.directory)
    (hmax : node.children.length ≤ max_entries)
    (hval : ∀ i, i < node.children.length →
      validate_user_address env.regions ((buf + sizeof_dirent * i) % 2 ^ 64) sizeof_dirent
        = some (kaddr i)) :
    (do_readdir env (some (47 :: cs)) buf max_entries).1 = ⟨.ok, node.children.length⟩ ∧
    (do_readdir env (some (47 :: cs)) buf max_entries).2.length = node.children.length ∧
    (∀ i, i < node.children.length →
      (do_readdir env (some (47 :: cs)) buf max_entries).2.getD i default =
        (kaddr i,
          { name := (node.children.getD i default).name.take
                (min (node.children.getD i default).name.length 63) ++
              List.replicate (64 - min (node.children.getD i default).name.length 63) 0
            type := if (node.children.getD i default).kind = fs_node_kind.directory
                then 100 else 102
            size := if (node.children.getD i default).kind = fs_node_kind.file
                then (node.children.getD i default).size % 2 ^ 32 else 0 })) := by
  rw [do_readdir_directory env cs buf max_entries node hres hdir]
  rw [readdir_loop_runs_out env.regions buf max_entries kaddr node.children 0 []
    (by omega) (fun i hi => by simpa using hval i hi)]
  simp only [Nat.zero_add, List.nil_append]
  refine ⟨trivial, expected_trace_length kaddr node.children 0, fun i hi => ?_⟩
  rw [expected_trace_getD kaddr node.children 0 i hi, Nat.zero_add, mk_dirent_eq]

/-- Witness for C2 amended: the two-child directory /d with cap 4 returns
ok with data 2 and both records. -/
theorem claim_C2_amended_witness :
    (do_readdir envW (some [47, 100]) 4096 4).1 = ⟨.ok, 2⟩ ∧
    (do_readdir envW (some [47, 100]) 4096 4).2.length = 2 :=
  ⟨(claim_C2_amended envW [100] 4096 4 nodeDocs (fun i => 9000 + 72 * i) rfl rfl
      (by decide) (by decide)).1,
   (claim_C2_amended envW [100] 4096 4 nodeDocs (fun i => 9000 + 72 * i) rfl rfl
      (by decide) (by decide)).2.1⟩

/- Helper lemmas about the ls word extraction. -/

theorem grabArg_no_space (t : List Nat) :
    ∀ (cap : Nat), (∀ c ∈ t, c ≠ 32) → t.length ≤ cap →
      grabArg cap t = (t, []) := by
  induction t with
  | nil => intro cap _ _; rfl
  | cons c cs ih =>
    intro cap hfree hlen
    have hc : c ≠ 32 := hfree c (List.mem_cons_self c cs)
    have hcap : cap ≠ 0 := by simp at hlen; omega
    rw [grabArg, if_neg hc, if_neg hcap,
      ih (cap - 1) (fun b hb => hfree b (List.mem_cons_of_mem c hb)) (by simp at hlen; omega)]

theorem grabArg_stops_at_space (t r : List Nat) :
    ∀ (cap : Nat), (∀ c ∈ t, c ≠ 32) → t.length ≤ cap →
      grabArg cap (t ++ 32 :: r) = (t, 32 :: r) := by
  induction t with
  | nil => intro cap _ _; rw [List.nil_append, grabArg, if_pos rfl]
  | cons c cs ih =>
    intro cap hfree hlen
    have hc : c ≠ 32 := hfree c (List.mem_cons_self c cs)
    have hcap : cap ≠ 0 := by simp at hlen; omega
    rw [List.cons_append, grabArg, if_neg hc, if_neg hcap,
      ih (cap - 1) (fun b hb => hfree b (List.mem_cons_of_mem c hb)) (by simp at hlen; omega)]

theorem dropWhile_spaces_nil :
    ∀ (k : Nat), (List.replicate k 32).dropWhile (fun c => c = 32) = [] := by
  intro k
  induction k with
  | zero => rfl
  | succ m ih => rw [List.replicate_succ, List.dropWhile_cons_of_pos (by simp)]; exact ih

theorem dropWhile_spaces (c : Nat) (cs : List Nat) (hc : c ≠ 32) :
    ∀ (k : Nat), (List.replicate k 32 ++ c :: cs).dropWhile (fun b => b = 32) = c :: cs := by
  intro k
  induction k with
  | zero => rw [List.replicate, List.nil_append, List.dropWhile_cons_of_neg (by simp [hc])]
  | succ m ih =>
    rw [List.replicate_succ, List.cons_append, List.dropWhile_cons_of_pos (by simp)]
    exact ih

/-- Counterexample to C9 as stated: the parser is positional, not
token-based.  The command line made of a space, a dash and the letter l
has exactly one whitespace-separated token, the -l flag, so the claim
requires a long-form listing of the root with status 0; but the parser
reads an empty first word and -l as the second word, prints the usage
message and exits with status 1. -/
theorem claim_C9_counterexample :
    str_tokens [32, 45, 108] = [[45, 108]] ∧
    ls_main (some [32, 45, 108]) = ⟨.usage, 1⟩ ∧
    ls_main (some [32, 45, 108]) ≠ ⟨.list true [], 0⟩ := by
  refine ⟨?_, ?_, ?_⟩ <;> decide

/-- C9 amended: for command lines without leading whitespace whose first
two words are shorter than 128 bytes the original dispatch holds, with
trailing spaces after a single token allowed; a line with more than two
tokens behaves as its first two tokens: -l followed by a path and then
anything lists that path long-form with status 0, and any other line
with a second token is a usage error with status 1.  A null or empty
line lists the root short-form with status 0. -/
theorem claim_C9_amended :
    ls_main none = ⟨.list false [], 0⟩ ∧
    ls_main (some []) = ⟨.list false [], 0⟩ ∧
    (∀ (t1 : List Nat) (k : Nat), (∀ c ∈ t1, c ≠ 32) → t1 ≠ [] → t1.length ≤ 127 →
      ls_main (some (t1 ++ List.replicate k 32)) =
        if t1 = [45, 108] then ⟨.list true [], 0⟩ else ⟨.list false t1, 0⟩) ∧
    (∀ (t1 t2 : List Nat) (k : Nat), (∀ c ∈ t1, c ≠ 32) → (∀ c ∈ t2, c ≠ 32) →
      t1 ≠ [] → t2 ≠ [] → t1.length ≤ 127 → t2.length ≤ 127 → 1 ≤ k →
      ls_main (some (t1 ++ List.replicate k 32 ++ t2)) =
        if t1 = [45, 108] then ⟨.list true t2, 0⟩ else ⟨.usage, 1⟩) ∧
    (∀ (t1 t2 : List Nat) (k : Nat) (rest : List Nat),
      (∀ c ∈ t1, c ≠ 32) → (∀ c ∈ t2, c ≠ 32) →
      t1 ≠ [] → t2 ≠ [] → t1.length ≤ 127 → t2.length ≤ 127 → 1 ≤ k →
      ls_main (some (t1 ++ List.replicate k 32 ++ t2 ++ 32 :: rest)) =
        if t1 = [45, 108] then ⟨.list true t2, 0⟩ else ⟨.usage, 1⟩) := by
  refine ⟨rfl, rfl, ?_, ?_, ?_⟩
  · intro t1 k hfree hne hlen
    have hlen0 : ¬ (t1 ++ List.replicate k 32).length = 0 := by
      simp
      intro h
      exact absurd h hne
    rw [ls_main, if_neg hlen0]
    cases k with
    | zero =>
      rw [List.replicate, List.append_nil, grabArg_no_space t1 127 hfree hlen]
      simp [grabArg]
    | succ m =>
      rw [List.replicate_succ, grabArg_stops_at_space t1 (List.replicate m 32) 127 hfree hlen]
      simp only []
      rw [show (32 :: List.replicate m 32 : List Nat) = List.replicate (m + 1) 32 from
        (List.replicate_succ 32 m).symm]
      rw [dropWhile_spaces_nil (m + 1)]
      simp [grabArg]
  · intro t1 t2 k hfree1 hfree2 hne1 hne2 hlen1 hlen2 hk
    obtain ⟨m, rfl⟩ : ∃ m, k = m + 1 := ⟨k - 1, by omega⟩
    obtain ⟨c2, cs2, rfl⟩ : ∃ c2 cs2, t2 = c2 :: cs2 := by
      cases t2 with
      | nil => exact absurd rfl hne2
      | cons a b => exact ⟨a, b, rfl⟩
    have hlen0 : ¬ (t1 ++ List.replicate (m + 1) 32 ++ c2 :: cs2).length = 0 := by simp
    rw [ls_main, if_neg hlen0]
    rw [List.replicate_succ, List.append_assoc, List.cons_append,
      grabArg_stops_at_space t1 (List.replicate m 32 ++ c2 :: cs2) 127 hfree1 hlen1]
    simp only []
    rw [show (32 :: (List.replicate m 32 ++ c2 :: cs2) : List Nat) =
      List.replicate (m + 1) 32 ++ c2 :: cs2 from by rw [List.replicate_succ, List.cons_append]]
    rw [dropWhile_spaces c2 cs2 (hfree2 c2 (List.mem_cons_self c2 cs2)) (m + 1)]
    rw [grabArg_no_space (c2 :: cs2) 127 hfree2 hlen2]
    simp only []
    rw [if_neg (by simp)]
  · intro t1 t2 k rest hfree1 hfree2 hne1 hne2 hlen1 hlen2 hk
    obtain ⟨m, rfl⟩ : ∃ m, k = m + 1 := ⟨k - 1, by omega⟩
    obtain ⟨c2, cs2, rfl⟩ : ∃ c2 cs2, t2 = c2 :: cs2 := by
      cases t2 with
      | nil => exact absurd rfl hne2
      | cons a b => exact ⟨a, b, rfl⟩
    have hlen0 : ¬ (t1 ++ List.replicate (m + 1) 32 ++ (c2 :: cs2) ++ 32 :: rest).length = 0 := by
      simp
    rw [ls_main, if_neg hlen0]
    rw [List.replicate_succ, List.append_assoc, List.append_assoc, List.cons_append,
      grabArg_stops_at_space t1 (List.replicate m 32 ++ ((c2 :: cs2) ++ 32 :: rest)) 127
        hfree1 hlen1]
    simp only []
    rw [show (32 :: (List.replicate m 32 ++ ((c2 :: cs2) ++ 32 :: rest)) : List Nat) =
      List.replicate (m + 1) 32 ++ ((c2 :: cs2) ++ 32 :: rest) from by
        simp [List.replicate_succ]]
    rw [show (List.replicate (m + 1) 32 ++ ((c2 :: cs2) ++ 32 :: rest) : List Nat) =
      List.replicate (m + 1) 32 ++ c2 :: (cs2 ++ 32 :: rest) from by rw [List.cons_append]]
    rw [dropWhile_spaces c2 (cs2 ++ 32 :: rest) (hfree2 c2 (List.mem_cons_self c2 cs2)) (m + 1)]
    rw [show (c2 :: (cs2 ++ 32 :: rest) : List Nat) = (c2 :: cs2) ++ 32 :: rest from by
      rw [List.cons_append]]
    rw [grabArg_stops_at_space (c2 :: cs2) rest 127 hfree2 hlen2]
    simp only []
    rw [if_neg (by simp)]

/-- Witness for C9 amended: the line -l then a space then the letter a
lists the path a in long form with status 0, and the bare letter a lists
it in short form. -/
theorem claim_C9_amended_witness :
    ls_main (some ([45, 108] ++ List.replicate 1 32 ++ [97])) = ⟨.list true [97], 0⟩ ∧
    ls_main (some ([97] ++ List.replicate 0 32)) = ⟨.list false [97], 0⟩ :=
  ⟨(claim_C9_amended.2.2.2.1 [45, 108] [97] 1 (by decide) (by decide) (by decide)
      (by decide) (by decide) (by decide) (by decide)).trans (by decide),
   (claim_C9_amended.2.2.1 [97] 0 (by decide) (by decide) (by decide)).trans (by decide)⟩

end Stacsos
